import Mathlib

/-
Verification of the zypherus-backend STT worker core.

This file shallowly embeds the string pipeline of the STT worker
(extractNewText, dedupAppend, splitSentences, cleanupText,
computeConfidenceForText, blendConfidence and the transcribeChunk /
processChunk state transition) and the audio windowing library
(calculateSamples, appendSamples, shiftWindow, processSamples,
stereoToMono, resampleLinear, convertAudioFormat).

Modelling conventions:
- JavaScript strings are Lean `String`s (all inputs considered are ASCII,
  where JS UTF-16 `.length`, `.slice`, `.toLowerCase` agree with the
  character-level model).
- The regex character class `\s` is modelled by the ASCII whitespace
  characters that occur in this pipeline.
- JS numbers used for confidences, ratios and resampling are modelled by
  exact rationals; the float comparisons performed by the source
  (`> 0.7`, `>= 0.5`, `< threshold`) agree with the exact comparisons for
  all denominators occurring here (word counts, halves), which are far
  below the 2^53 precision limit.
- Fallible code (`throw`) returns `Except`; the unbounded `while` loops of
  `processSamples` are modelled with an explicit fuel parameter, where the
  dedicated error value `outOfFuel` for every fuel marks divergence.
-/

set_option maxRecDepth 16000

namespace Zypherus

/-- Character class of the regex `\s` restricted to ASCII, as used by the
`trim`, `replace(/\s+/g, ...)`, `split(/\s+/)` and `search(/\s/)` calls of
the worker. -/
def isWsChar (c : Char) : Bool :=
  c = (' ') || c = ('\t') || c = ('\n') || c = ('\r') || c = ('\x0b') || c = ('\x0c')

/-- Character class `[.!?]` of sentence terminators. -/
def isTermChar (c : Char) : Bool :=
  c = ('.') || c = ('!') || c = ('?')

/-- Character class `[.!?,;:]` used by the punctuation-spacing cleanup. -/
def isSpacingPunct (c : Char) : Bool :=
  c = ('.') || c = ('!') || c = ('?') || c = (',') || c = (';') || c = (':')

/-- Character class `[A-Z]` used by the terminator-spacing cleanup. -/
def isUpperAZ (c : Char) : Bool :=
  ('A') ≤ c && c ≤ ('Z')

/-- JS `String.prototype.trim` on the character list: drop whitespace from
both ends. -/
def trimChars (l : List Char) : List Char :=
  ((l.dropWhile isWsChar).reverse.dropWhile isWsChar).reverse

/-- JS `s.trim()`. -/
def jsTrim (s : String) : String :=
  ⟨trimChars s.data⟩

/-- JS `s.toLowerCase()` (ASCII case folding). -/
def lowerStr (s : String) : String :=
  ⟨s.data.map Char.toLower⟩

/-- Helper for `collapseWs`: `inRun` records whether the previous character
was whitespace (so further whitespace of the same run is dropped). -/
def collapseWsAux : Bool → List Char → List Char
  | _, [] => []
  | inRun, c :: rest =>
    if isWsChar c then
      if inRun then collapseWsAux true rest
      else (' ') :: collapseWsAux true rest
    else c :: collapseWsAux false rest

/-- JS `s.replace(/\s+/g, ' ')` on the character list: every maximal
whitespace run becomes a single space. -/
def collapseWs (l : List Char) : List Char :=
  collapseWsAux false l

/-- JS `s.replace(/\s+/g, ' ')`. -/
def collapseStr (s : String) : String :=
  ⟨collapseWs s.data⟩

/-- The normalization `s.trim().toLowerCase().replace(/\s+/g, ' ')` used by
`extractNewText` for both of its arguments. -/
def normText (s : String) : String :=
  ⟨collapseWs ((trimChars s.data).map Char.toLower)⟩

/-- JS `hay.includes(needle)`. -/
def strIncludes (hay needle : String) : Bool :=
  hay.data.tails.any fun t => needle.data.isPrefixOf t

/-- JS `s.startsWith(p)`. -/
def strStarts (s p : String) : Bool :=
  p.data.isPrefixOf s.data

/-- JS `s.slice(n)` for `0 ≤ n`. -/
def strDropn (s : String) (n : Nat) : String :=
  ⟨s.data.drop n⟩

/-- JS `s.slice(0, n)` for `0 ≤ n`. -/
def strTake (s : String) (n : Nat) : String :=
  ⟨s.data.take n⟩

/-- JS `s.slice(-n)` for `1 ≤ n`: the last `min n (length s)` characters. -/
def strTail (s : String) (n : Nat) : String :=
  ⟨s.data.drop (s.data.length - n)⟩

/-- JS `s.length` (code units; all strings considered are ASCII). -/
def strLen (s : String) : Nat :=
  s.data.length

/-- JS `s.split(' ')` on the character list: split at every single space
character, keeping empty fields (`"".split(' ') = [""]`). -/
def splitSpaceChars : List Char → List (List Char)
  | [] => [[]]
  | c :: rest =>
    if c = (' ') then [] :: splitSpaceChars rest
    else
      match splitSpaceChars rest with
      | [] => [[c]]
      | w :: ws => (c :: w) :: ws

/-- JS `s.split(' ')`. -/
def splitSp (s : String) : List String :=
  (splitSpaceChars s.data).map String.mk

/-- JS `s.split(/\s+/)` on the character list: split at maximal whitespace
runs; a leading (resp. trailing) run contributes a leading (resp.
trailing) empty field, and `"".split(/\s+/) = [""]`.  Computed by first
collapsing each whitespace run to a single space and then splitting at
spaces, which yields exactly the JS field list. -/
def splitWsChars (l : List Char) : List (List Char) :=
  splitSpaceChars (collapseWs l)

/-- JS `s.split(/\s+/)`. -/
def splitWs (s : String) : List String :=
  (splitWsChars s.data).map String.mk

/-- JS `words.join(' ')`. -/
def joinWithSpace : List String → String
  | [] => ""
  | [w] => w
  | w :: ws => w ++ " " ++ joinWithSpace ws

/-- JS `l.slice(-n)` on arrays: the last `min n (length l)` elements. -/
def takeLast (n : Nat) (l : List α) : List α :=
  l.drop (l.length - n)

/-- JS `s.search(/\s/)`: index of the first whitespace character, `none`
when there is none (JS returns `-1`). -/
def firstWsIndex (s : String) : Option Nat :=
  s.data.findIdx? isWsChar

/-- The word-overlap search of `extractNewText`: for `len` from the given
bound down to `3`, the first `len` with
`prevWords.slice(-len).join(' ') === currWords.slice(0, len).join(' ')`,
else `0`. -/
def findWordOverlap (prevWords currWords : List String) : Nat → Nat
  | 0 => 0
  | len + 1 =>
    if len + 1 < 3 then 0
    else if joinWithSpace (takeLast (len + 1) prevWords) = joinWithSpace (currWords.take (len + 1)) then
      len + 1
    else findWordOverlap prevWords currWords len

/-- The character-overlap search of `extractNewText`: for `len` from the
given bound down to `20`, the first `len` with
`prevTail.slice(-len) === currHead.slice(0, len)`, else `0`. -/
def findCharOverlap (pt ch : String) : Nat → Nat
  | 0 => 0
  | len + 1 =>
    if len + 1 < 20 then 0
    else if strTail pt (len + 1) = strTake ch (len + 1) then len + 1
    else findCharOverlap pt ch len

/-- Embedding of `extractNewText(alreadyBroadcasted, newTranscription)`
(worker source): returns only the part of the new transcription that is
not already implied by the broadcast history.  The `> 0.7` float
comparison on the redundancy ratio `redundantCount / newWordsSet.size` is
rendered exactly as `7 * size < 10 * redundantCount` (equivalent for the
word counts at play, and when the set is empty both sides agree that the
comparison fails). -/
def extractNewText (alreadyBroadcasted newTranscription : String) : String :=
  let prev := normText alreadyBroadcasted
  let curr := normText newTranscription
  if prev = "" then jsTrim newTranscription
  else if curr = "" then ""
  else if strIncludes prev curr then ""
  else if strStarts curr prev then jsTrim (strDropn (jsTrim newTranscription) (strLen prev))
  else
    let prevWords := splitSp prev
    let currWords := splitSp curr
    let originalCurrWords := splitSp (collapseStr (jsTrim newTranscription))
    let maxCheck := min (min prevWords.length currWords.length) 50
    let bestOverlap := findWordOverlap prevWords currWords maxCheck
    if 3 ≤ bestOverlap then jsTrim (joinWithSpace (originalCurrWords.drop bestOverlap))
    else
      let prevTail := strTail prev 200
      let currHead := strTake curr 200
      let charOverlap := findCharOverlap prevTail currHead (min (strLen prevTail) (strLen currHead))
      if 20 ≤ charOverlap then
        let afterOverlap := strDropn (jsTrim newTranscription) charOverlap
        match firstWsIndex afterOverlap with
        | some i => jsTrim (strDropn afterOverlap i)
        | none => jsTrim afterOverlap
      else
        let uniqueCurr := currWords.dedup
        let redundantCount := (uniqueCurr.filter fun w => prevWords.contains w).length
        if 7 * uniqueCurr.length < 10 * redundantCount ∧ currWords.length ≤ prevWords.length then ""
        else jsTrim newTranscription

/-- The overlap search of `dedupAppend`: for `i` from the given bound down
to `2`, the first `i` with a case-insensitive match between the last `i`
buffer words and the first `i` chunk words, else `0`. -/
def findDedupOverlap (bufferWords chunkWords : List String) : Nat → Nat
  | 0 => 0
  | i + 1 =>
    if i + 1 < 2 then 0
    else if lowerStr (joinWithSpace (takeLast (i + 1) bufferWords)) =
        lowerStr (joinWithSpace (chunkWords.take (i + 1))) then i + 1
    else findDedupOverlap bufferWords chunkWords i

/-- Embedding of `dedupAppend(buffer, newChunk)` (worker source): append the
chunk to the buffer, merging at the longest word-level overlap of at least
two words. -/
def dedupAppend (buffer newChunk : String) : String :=
  if buffer = "" then newChunk
  else if newChunk = "" then buffer
  else
    let bufferWords := splitWs (jsTrim buffer)
    let chunkWords := splitWs (jsTrim newChunk)
    let maxOverlap := min (min bufferWords.length chunkWords.length) 20
    let i := findDedupOverlap bufferWords chunkWords maxOverlap
    if 2 ≤ i then
      let remainingChunk := joinWithSpace (chunkWords.drop i)
      if remainingChunk = "" then buffer else buffer ++ " " ++ remainingChunk
    else buffer ++ " " ++ newChunk

/-- Length of the match of the regex `[^.!?]+[.!?]+(?=\s|$)` at the start of
`l`, or `0` when the regex does not match there.  Backtracking cannot help
this pattern: the body run and the terminator run are maximal, and the
lookahead must see whitespace or the end. -/
def sentenceMatchLen (l : List Char) : Nat :=
  let body := (l.takeWhile fun c => !isTermChar c).length
  if body = 0 then 0
  else
    let terms := ((l.drop body).takeWhile isTermChar).length
    if terms = 0 then 0
    else
      match l.drop (body + terms) with
      | [] => body + terms
      | c :: _ => if isWsChar c then body + terms else 0

/-- Helper for `scanSentences`: the global regex scan, advancing by one
character after a failed match attempt; `fuel = l.length` is exactly
sufficient because every step consumes at least one character. -/
def scanSentencesAux : Nat → List Char → List (List Char)
  | 0, _ => []
  | fuel + 1, l =>
    match l with
    | [] => []
    | _ :: rest =>
      let n := sentenceMatchLen l
      if n = 0 then scanSentencesAux fuel rest
      else l.take n :: scanSentencesAux fuel (l.drop n)

/-- All matches of `text.match(/[^.!?]+[.!?]+(?=\s|$)/g)` in order. -/
def scanSentences (l : List Char) : List (List Char) :=
  scanSentencesAux l.length l

/-- Result record of `splitSentences`. -/
structure SplitResult where
  completeSentences : String
  remainder : String
deriving Repr, DecidableEq

/-- Embedding of `splitSentences(text)` (worker source): the complete
sentences are the regex matches joined by single spaces and trimmed, the
remainder is the trimmed tail of the original text starting at the length
of that joined string. -/
def splitSentences (text : String) : SplitResult :=
  if text = "" then ⟨"", ""⟩
  else
    let ms := (scanSentences text.data).map String.mk
    if ms.isEmpty then ⟨"", jsTrim text⟩
    else
      let completeSentences := jsTrim (joinWithSpace ms)
      ⟨completeSentences, jsTrim (strDropn text (strLen completeSentences))⟩

/-- Whisper response segment: only the fields read by the worker are kept
(`id`, `start`, `end` are never consulted). -/
structure WhisperSegment where
  text : Option String := none
  confidence : Option ℚ := none
deriving Repr, DecidableEq

/-- The inner repeat search of `cleanupText` at position `i`: for
`phraseLen` from the given bound down to `3`, skipping lengths whose two
copies do not fit (`i + phraseLen * 2 > words.length`), the first
`phraseLen` whose adjacent phrases match case-insensitively, else `0`. -/
def findRepeatLen (words : List String) (i : Nat) : Nat → Nat
  | 0 => 0
  | phraseLen + 1 =>
    if phraseLen + 1 < 3 then 0
    else if words.length < i + (phraseLen + 1) * 2 then findRepeatLen words i phraseLen
    else if lowerStr (joinWithSpace ((words.drop i).take (phraseLen + 1))) =
        lowerStr (joinWithSpace ((words.drop (i + (phraseLen + 1))).take (phraseLen + 1))) then
      phraseLen + 1
    else findRepeatLen words i phraseLen

/-- The word-scanning loop of `cleanupText`: keep one copy of an
immediately repeated phrase of 3..10 words, else advance one word.
`fuel = words.length` is exactly sufficient because `i` grows by at least
one per step and the loop ends as soon as `words.length ≤ i`. -/
def dedupScanAux (words : List String) : Nat → Nat → List String
  | 0, _ => []
  | fuel + 1, i =>
    if h : i < words.length then
      let len := findRepeatLen words i (min 10 (words.length - i))
      if len = 0 then words.get ⟨i, h⟩ :: dedupScanAux words fuel (i + 1)
      else (words.drop i).take len ++ dedupScanAux words fuel (i + len * 2)
    else []

/-- The repeated-phrase collapse of `cleanupText`, starting at word 0. -/
def dedupScan (words : List String) : List String :=
  dedupScanAux words words.length 0

/-- Helper for `collapseSamePunct`: `run` holds the terminator character of
the run currently being emitted, so its further copies are dropped. -/
def collapseSamePunctAux : Option Char → List Char → List Char
  | _, [] => []
  | run, c :: rest =>
    if isTermChar c then
      if run = some c then collapseSamePunctAux run rest
      else c :: collapseSamePunctAux (some c) rest
    else c :: collapseSamePunctAux none rest

/-- JS `s.replace(/([.!?])\1+/g, '$1')`: every run of two or more identical
terminator characters becomes a single one. -/
def collapseSamePunct (l : List Char) : List Char :=
  collapseSamePunctAux none l

/-- JS `s.replace(/\s+([.!?,;:])/g, '$1')`: drop every whitespace run that
immediately precedes one of the listed punctuation characters (each
whitespace character is dropped exactly when the rest of its run is
followed by such a punctuation character). -/
def removeWsBeforePunct : List Char → List Char
  | [] => []
  | c :: rest =>
    if isWsChar c then
      match (rest.dropWhile isWsChar).head? with
      | some p => if isSpacingPunct p then removeWsBeforePunct rest else c :: removeWsBeforePunct rest
      | none => c :: removeWsBeforePunct rest
    else c :: removeWsBeforePunct rest

/-- JS `s.replace(/([.!?])([A-Z])/g, '$1 $2')`: insert one space between a
terminator and an immediately following uppercase letter. -/
def spaceAfterTerm : List Char → List Char
  | [] => []
  | [c] => [c]
  | c :: d :: rest =>
    if isTermChar c && isUpperAZ d then c :: (' ') :: d :: spaceAfterTerm rest
    else c :: spaceAfterTerm (d :: rest)

/-- One step of the reversed-order loop of `computeConfidenceForText`:
accumulates `(remaining, weighted, total)`. -/
def confidenceLoop : List WhisperSegment → Nat → ℚ → ℚ → ℚ × ℚ
  | [], _, weighted, total => (weighted, total)
  | seg :: rest, remaining, weighted, total =>
    if remaining = 0 then (weighted, total)
    else
      let segText := jsTrim (seg.text.getD "")
      if segText = "" then confidenceLoop rest remaining weighted total
      else
        let len := min (strLen segText) remaining
        let weight : ℚ := max 1 (len : ℚ)
        confidenceLoop rest (remaining - len) (weighted + seg.confidence.getD (1 / 2) * weight)
          (total + weight)

/-- Embedding of `computeConfidenceForText(segments, text)` (worker
source): a length-weighted average of the segment confidences covering the
tail of the target text, `none` when there is nothing to weigh. -/
def computeConfidenceForText (segments : List WhisperSegment) (text : String) : Option ℚ :=
  if segments.isEmpty then none
  else
    let target := jsTrim text
    if target = "" then none
    else
      let wt := confidenceLoop segments.reverse (strLen target) 0 0
      if wt.2 = 0 then none else some (wt.1 / wt.2)

/-- Embedding of `blendConfidence(current, incoming)` (worker source); the
`Number.isFinite` guard is vacuous over exact rationals. -/
def blendConfidence (current incoming : ℚ) : ℚ :=
  max 0 (min 1 (current * (1 / 2) + incoming * (1 / 2)))

/-- Embedding of `cleanupText(text, segments)` (worker source): whitespace
normalization, conditional repeated-phrase collapse, then the three
punctuation fixes. -/
def cleanupText (text : String) (segments : List WhisperSegment) : String :=
  if text = "" then ""
  else
    let cleaned := jsTrim (collapseStr text)
    let effectiveConfidence := (computeConfidenceForText segments cleaned).getD 1
    let cleaned2 :=
      if 1 / 2 ≤ effectiveConfidence then joinWithSpace (dedupScan (splitSp cleaned))
      else cleaned
    jsTrim ⟨spaceAfterTerm (removeWsBeforePunct (collapseSamePunct cleaned2.data))⟩

/-- Emitted transcript segment; only the deterministic fields are modelled
(`createdAt` is a wall-clock read and `source` is the constant string
`stt`). -/
structure TranscriptSegment where
  id : String
  text : String
  startMs : Int
  endMs : Int
  isFinal : Bool
  revision : Nat
  confidence : ℚ
deriving Repr, DecidableEq

/-- The process-global mutable state of the worker:
`lastBroadcastedText`, `sentenceBuffer`, `sentenceConfidence`,
`totalChunksProcessed`, `totalChunksSkipped` and `transcriptHistory`. -/
structure SttState where
  lastBroadcastedText : String
  sentenceBuffer : String
  sentenceConfidence : ℚ
  totalChunksProcessed : Nat
  totalChunksSkipped : Nat
  transcriptHistory : List TranscriptSegment
deriving Repr, DecidableEq

/-- Initial values of the worker globals. -/
def initialSttState : SttState :=
  { lastBroadcastedText := ""
    sentenceBuffer := ""
    sentenceConfidence := 1
    totalChunksProcessed := 0
    totalChunksSkipped := 0
    transcriptHistory := [] }

/-- The chunk metadata consulted by `transcribeChunk`. -/
structure ChunkMeta where
  chunkId : String
  startMs : Int
  endMs : Int
deriving Repr, DecidableEq

/-- The `combinedContext` of `transcribeChunk`:
`(lastBroadcastedText + ' ' + sentenceBuffer).trim()`. -/
def combinedOf (st : SttState) : String :=
  jsTrim (st.lastBroadcastedText ++ " " ++ st.sentenceBuffer)

/-- The `newText` of `transcribeChunk`:
`extractNewText(combinedContext, fullText)` with `fullText` the trimmed
response text. -/
def newTextOf (st : SttState) (responseText : String) : String :=
  extractNewText (combinedOf st) (jsTrim responseText)

/-- The `actualNewText` of `transcribeChunk`:
`dedupAppend(combinedContext, newText).slice(combinedContext.length).trim()`. -/
def actualNewOf (st : SttState) (responseText : String) : String :=
  jsTrim (strDropn (dedupAppend (combinedOf st) (newTextOf st responseText))
    (strLen (combinedOf st)))

/-- The updated sentence buffer of `transcribeChunk` before the release
decision: `(sentenceBuffer + ' ' + actualNewText).trim()`. -/
def bufAfterOf (st : SttState) (responseText : String) : String :=
  jsTrim (st.sentenceBuffer ++ " " ++ actualNewOf st responseText)

/-- The `confidenceForNewText` of `transcribeChunk`:
`computeConfidenceForText(segments, actualNewText) ?? 1`. -/
def confNewOf (segments : List WhisperSegment) (st : SttState) (responseText : String) : ℚ :=
  (computeConfidenceForText segments (actualNewOf st responseText)).getD 1

/-- The blended `sentenceConfidence` of `transcribeChunk` before the
release decision. -/
def blendedOf (segments : List WhisperSegment) (st : SttState) (responseText : String) : ℚ :=
  blendConfidence st.sentenceConfidence (confNewOf segments st responseText)

/-- The `bestConfidence` of `transcribeChunk`:
`segments.reduce((max, seg) => Math.max(max, seg.confidence ?? 0), 0)`. -/
def bestConf (segments : List WhisperSegment) : ℚ :=
  segments.foldl (fun m seg => max m (seg.confidence.getD 0)) 0

/-- Embedding of the state transition performed by `transcribeChunk`
(worker source), from the `totalChunksProcessed += 1` at its start to its
return: given the current globals, the chunk metadata, the STT response
text and segments, it yields the new globals and the returned segment
list.  The WAV encoding and the HTTP, logging and metrics calls are I/O
and do not touch the modelled state. -/
def transcribeChunkPure (threshold : ℚ) (st : SttState) (meta : ChunkMeta)
    (responseText : String) (segments : List WhisperSegment) :
    SttState × List TranscriptSegment :=
  let stP := { st with totalChunksProcessed := st.totalChunksProcessed + 1 }
  if jsTrim responseText = "" then (stP, [])
  else if newTextOf st responseText = "" then
    ({ stP with totalChunksSkipped := stP.totalChunksSkipped + 1 }, [])
  else if actualNewOf st responseText = "" then
    ({ stP with totalChunksSkipped := stP.totalChunksSkipped + 1 }, [])
  else
    let buf1 := bufAfterOf st responseText
    let confNew := confNewOf segments st responseText
    let conf1 := blendedOf segments st responseText
    let sp := splitSentences buf1
    if sp.completeSentences = "" ∨ conf1 < threshold then
      ({ stP with sentenceBuffer := buf1, sentenceConfidence := conf1 }, [])
    else
      let cleanedText := cleanupText sp.completeSentences segments
      if cleanedText = "" then
        ({ stP with sentenceBuffer := sp.remainder,
                    sentenceConfidence := blendConfidence 1 confNew }, [])
      else
        let hist1 := jsTrim (st.lastBroadcastedText ++ " " ++ cleanedText)
        let hist2 := if 1000 < strLen hist1 then strTail hist1 1000 else hist1
        let seg : TranscriptSegment :=
          { id := meta.chunkId ++ "-new"
            text := cleanedText
            startMs := meta.startMs
            endMs := meta.endMs
            isFinal := true
            revision := 0
            confidence := bestConf segments }
        ({ stP with sentenceBuffer := sp.remainder,
                    sentenceConfidence := blendConfidence 1 confNew,
                    lastBroadcastedText := hist2 }, [seg])

/-- Embedding of the state effect of `processChunk` after a successful
transcription (worker source): run `transcribeChunk` and, when segments
were returned, push them into `transcriptHistory`, shifting the oldest
entries out until at most 40 remain. -/
def processChunkPure (threshold : ℚ) (st : SttState) (meta : ChunkMeta)
    (responseText : String) (segments : List WhisperSegment) :
    SttState × List TranscriptSegment :=
  let r := transcribeChunkPure threshold st meta responseText segments
  if r.2.isEmpty then r
  else
    let h := r.1.transcriptHistory ++ r.2
    ({ r.1 with transcriptHistory := h.drop (h.length - 40) }, r.2)

/-- Errors thrown by the audio-utility library, plus `outOfFuel`, the
marker used by the fuel-bounded rendering of the unbounded `while` loops
of `processSamples` (returned for every fuel exactly when the source loop
diverges). -/
inductive AudioError where
  | unsupportedChannelConversion (fromCh toCh : Nat)
  | nonPositiveRate
  | windowOverflow
  | capacityMismatch
  | outOfFuel
deriving Repr, DecidableEq

/-- JS `Math.round`: round half toward positive infinity. -/
def jsRound (q : ℚ) : Int :=
  ⌊q + 1 / 2⌋

/-- Embedding of `stereoToMono(stereoSamples)` (TranscriptStream source):
average each interleaved left/right pair as `Math.round((L + R) / 2)`; a
trailing unpaired sample is ignored. -/
def stereoToMono : List Int → List Int
  | l :: r :: rest => jsRound (((l : ℚ) + (r : ℚ)) / 2) :: stereoToMono rest
  | _ => []

/-- Read `l[i]` as a rational; the out-of-range reads that JS would turn
into `NaN` (only reachable for empty input) are modelled as `0`. -/
def qGet (l : List ℚ) (i : Int) : ℚ :=
  if 0 ≤ i then ((l.get? i.toNat).getD 0) else 0

/-- The first-order exponential smoothing loop of `resampleLinear`:
`prev += alpha * (sample - prev)` recorded per input sample. -/
def smoothScan (alpha : ℚ) : ℚ → List Int → List ℚ
  | _, [] => []
  | prev, x :: rest =>
    let nxt := prev + alpha * ((x : ℚ) - prev)
    nxt :: smoothScan alpha nxt rest

/-- The arithmetic core of `resampleLinear` for distinct positive rates
(TranscriptStream source), with the JS floating-point arithmetic idealized
over exact rationals: exponential pre-smoothing with
`alpha = min 1 (1.5 * toRate / fromRate)`, then linear interpolation onto
`max 1 (round (len * toRate / fromRate))` outputs, each rounded and
clamped to the s16 range. -/
def resampleCore (input : List Int) (fromRate toRate : Int) : List Int :=
  let lengthRatio : ℚ := (toRate : ℚ) / (fromRate : ℚ)
  let outLength : Nat := max 1 (jsRound ((input.length : ℚ) * lengthRatio)).toNat
  let alpha : ℚ := min 1 (lengthRatio * (3 / 2))
  let smoothed := smoothScan alpha ((input.headD 0 : Int) : ℚ) input
  let scale : ℚ := ((input.length : ℚ) - 1) / max 1 ((outLength : ℚ) - 1)
  (List.range outLength).map fun i =>
    let position : ℚ := (i : ℚ) * scale
    let index : Int := ⌊position⌋
    let frac : ℚ := position - (index : ℚ)
    let nextIndex : Int := min (index + 1) ((smoothed.length : Int) - 1)
    let value := qGet smoothed index * (1 - frac) + qGet smoothed nextIndex * frac
    max (-32768) (min 32767 (jsRound value))

/-- Embedding of `resampleLinear(input, fromRate, toRate)` (TranscriptStream
source): equal rates return the input unchanged, non-positive rates throw,
otherwise the smoothing/interpolation core runs. -/
def resampleLinear (input : List Int) (fromRate toRate : Int) : Except AudioError (List Int) :=
  if fromRate = toRate then .ok input
  else if fromRate ≤ 0 ∨ toRate ≤ 0 then .error .nonPositiveRate
  else .ok (resampleCore input fromRate toRate)

/-- Embedding of `convertAudioFormat(input, fromChannels, fromRate,
toChannels, toRate)` (TranscriptStream source): stereo-to-mono or identity
channel handling (anything else throws), then resampling when the rates
differ. -/
def convertAudioFormat (input : List Int) (fromChannels : Nat) (fromRate : Int)
    (toChannels : Nat) (toRate : Int) : Except AudioError (List Int) :=
  let channelStep : Except AudioError (List Int) :=
    if fromChannels = 2 ∧ toChannels = 1 then .ok (stereoToMono input)
    else if fromChannels ≠ toChannels then
      .error (.unsupportedChannelConversion fromChannels toChannels)
    else .ok input
  match channelStep with
  | .error e => .error e
  | .ok processed =>
    if fromRate ≠ toRate then resampleLinear processed fromRate toRate else .ok processed

/-- Embedding of `calculateSamples(sampleRate, durationMs, channels)`
(TranscriptStream source): `Math.floor(rate * ms * ch / 1000)`. -/
def calculateSamples (sampleRate durationMs channels : Nat) : Nat :=
  sampleRate * durationMs * channels / 1000

/-- Sliding-window configuration (the `format` tag carries no behavior and
is omitted). -/
structure SlidingWindowConfig where
  sampleRate : Nat
  channels : Nat
  windowMs : Nat
  strideMs : Nat
deriving Repr, DecidableEq

/-- The window sample count computed by `processSamples` from the config. -/
def windowSamplesOf (cfg : SlidingWindowConfig) : Nat :=
  calculateSamples cfg.sampleRate cfg.windowMs cfg.channels

/-- The stride sample count computed by `processSamples` from the config. -/
def strideSamplesOf (cfg : SlidingWindowConfig) : Nat :=
  calculateSamples cfg.sampleRate cfg.strideMs cfg.channels

/-- The sliding-window ring: a fixed buffer and the number of filled
samples. -/
structure SlidingWindowState where
  buffer : List Int
  cursor : Nat
deriving Repr, DecidableEq

/-- Embedding of `createEmptyState(capacity)` (TranscriptStream source). -/
def createEmptyState (capacity : Nat) : SlidingWindowState :=
  ⟨List.replicate capacity 0, 0⟩

/-- `Int16Array.set` at offset `pos` (in range whenever
`pos + vals.length ≤ buf.length`, which `appendSamples` guarantees). -/
def writeAt (buf : List Int) (pos : Nat) (vals : List Int) : List Int :=
  buf.take pos ++ vals ++ buf.drop (pos + vals.length)

/-- Embedding of `appendSamples(state, samples)` (TranscriptStream source):
throws `Sliding window overflow` when the samples do not fit. -/
def appendSamples (state : SlidingWindowState) (samples : List Int) :
    Except AudioError SlidingWindowState :=
  let remaining := state.buffer.length - state.cursor
  if remaining < samples.length then .error .windowOverflow
  else .ok ⟨writeAt state.buffer state.cursor samples, state.cursor + samples.length⟩

/-- Embedding of `hasWindow(state)` (TranscriptStream source). -/
def hasWindow (state : SlidingWindowState) : Bool :=
  state.cursor = state.buffer.length

/-- Embedding of `shiftWindow(state, strideSamples)` (TranscriptStream
source): when the stride covers the buffer only the cursor resets,
otherwise `copyWithin(0, strideSamples)` slides the tail to the front
(leaving the last `strideSamples` positions at their old values) and the
cursor becomes `length - strideSamples`. -/
def shiftWindow (state : SlidingWindowState) (strideSamples : Nat) : SlidingWindowState :=
  if state.buffer.length ≤ strideSamples then { state with cursor := 0 }
  else
    ⟨state.buffer.drop strideSamples ++ state.buffer.drop (state.buffer.length - strideSamples),
      state.buffer.length - strideSamples⟩

/-- One emitted window of `processSamples`: the cloned payload, the window
timestamps, and two ghost observations (the ring cursor when the window
was closed and right after the slide) used to state the cursor
invariants. -/
structure EmittedWindow where
  payload : List Int
  startMs : Int
  endMs : Int
  cursorBefore : Nat
  cursorAfter : Nat
deriving Repr, DecidableEq

/-- The emission step shared by both flush sites of `processSamples`:
clone the ring as the chunk payload, stamp `[ts, ts + windowMs]`, then
`shiftWindow`.  The random `chunkId` and the ISO capture timestamps are
I/O and are not modelled. -/
def emitWindow (cfg : SlidingWindowConfig) (strideSamples : Nat)
    (state : SlidingWindowState) (ts : Int) : EmittedWindow × SlidingWindowState :=
  let shifted := shiftWindow state strideSamples
  ({ payload := state.buffer
     startMs := ts
     endMs := ts + (cfg.windowMs : Int)
     cursorBefore := state.cursor
     cursorAfter := shifted.cursor }, shifted)

/-- The `while (hasWindow(state))` inner loop of `processSamples`,
fuel-bounded. -/
def innerFlush (cfg : SlidingWindowConfig) (strideSamples : Nat) :
    Nat → SlidingWindowState → Int →
    Except AudioError (List EmittedWindow × SlidingWindowState × Int)
  | 0, _, _ => .error .outOfFuel
  | fuel + 1, state, ts =>
    if state.cursor = state.buffer.length then
      let e := emitWindow cfg strideSamples state ts
      match innerFlush cfg strideSamples fuel e.2 (ts + (cfg.strideMs : Int)) with
      | .error err => .error err
      | .ok (ws, st, t) => .ok (e.1 :: ws, st, t)
    else .ok ([], state, ts)

/-- The `while (offset < samples.length)` outer loop of `processSamples`,
fuel-bounded, carried over the not-yet-consumed suffix of the input. -/
def processLoop (cfg : SlidingWindowConfig) (strideSamples : Nat) :
    Nat → SlidingWindowState → List Int → Int →
    Except AudioError (List EmittedWindow × SlidingWindowState)
  | 0, _, _, _ => .error .outOfFuel
  | fuel + 1, state, rest, ts =>
    if rest.isEmpty then .ok ([], state)
    else if state.buffer.length - state.cursor = 0 then
      let e := emitWindow cfg strideSamples state ts
      match processLoop cfg strideSamples fuel e.2 rest (ts + (cfg.strideMs : Int)) with
      | .error err => .error err
      | .ok (ws, st) => .ok (e.1 :: ws, st)
    else
      let available := state.buffer.length - state.cursor
      let tk := min available rest.length
      match appendSamples state (rest.take tk) with
      | .error err => .error err
      | .ok st1 =>
        match innerFlush cfg strideSamples fuel st1 ts with
        | .error err => .error err
        | .ok (ws, st2, ts2) =>
          match processLoop cfg strideSamples fuel st2 (rest.drop tk) ts2 with
          | .error err => .error err
          | .ok (ws2, st3) => .ok (ws ++ ws2, st3)

/-- Embedding of `processSamples(state, samples, config, chunkFactory,
timestampMs)` (TranscriptStream source): capacity check, then the
iterative windowing loop.  The fuel `2 * samples.length + 4` is sufficient
for every terminating execution of the source loop (each outer step either
consumes input or is the single initial flush of an already-full ring);
`outOfFuel` for this and every larger fuel marks a diverging
configuration. -/
def processSamples (state : SlidingWindowState) (samples : List Int)
    (cfg : SlidingWindowConfig) (ts : Int) :
    Except AudioError (List EmittedWindow × SlidingWindowState) :=
  if state.buffer.length ≠ windowSamplesOf cfg then .error .capacityMismatch
  else processLoop cfg (strideSamplesOf cfg) (2 * samples.length + 4) state samples ts

/-- Claim C5 counterexample config: `windowMs = 0` makes the configured
window sample count `0`. -/
def zeroCapacityConfig : SlidingWindowConfig := ⟨1000, 1, 0, 2⟩

/-- Divergence of the outer `while` loop of `processSamples` at capacity 0
with pending samples, rendered in the fuel model: every fuel is
exhausted. -/
def processLoopDivergesAtZeroCapacity : Prop :=
  ∀ (fuel : Nat) (ts : Int),
    processLoop zeroCapacityConfig (strideSamplesOf zeroCapacityConfig) fuel
      (createEmptyState 0) [0] ts = .error .outOfFuel

/-- Chunk metadata used by the concrete pipeline runs. -/
def mkMeta : ChunkMeta := ⟨"chunk-1", 0, 3000⟩

/-- Rendering of the release predicate exactly as claim C6 words it: the
buffer contains at least one terminator from the set, followed by
whitespace or the end of the string. -/
def claimTermMarker : List Char → Bool
  | [] => false
  | [c] => isTermChar c
  | c :: d :: rest => (isTermChar c && isWsChar d) || claimTermMarker (d :: rest)

/-! General lemmas about the sliding-window operations. -/

theorem shiftWindow_buffer_length (s : SlidingWindowState) (k : Nat) :
    (shiftWindow s k).buffer.length = s.buffer.length := by
  unfold shiftWindow
  by_cases h : s.buffer.length ≤ k
  · simp [h]
  · simp only [h, if_false, List.length_append, List.length_drop]
    omega

theorem shiftWindow_cursor (s : SlidingWindowState) (k : Nat) :
    (shiftWindow s k).cursor = if s.buffer.length ≤ k then 0 else s.buffer.length - k := by
  unfold shiftWindow
  by_cases h : s.buffer.length ≤ k <;> simp [h]

theorem shiftWindow_cursor_lt (s : SlidingWindowState) (k : Nat)
    (hk : 1 ≤ k) (hb : 1 ≤ s.buffer.length) :
    (shiftWindow s k).cursor < s.buffer.length := by
  rw [shiftWindow_cursor]
  split <;> omega

theorem writeAt_length (buf : List Int) (pos : Nat) (vals : List Int)
    (h : pos + vals.length ≤ buf.length) :
    (writeAt buf pos vals).length = buf.length := by
  unfold writeAt
  simp only [List.length_append, List.length_take, List.length_drop]
  omega

theorem appendSamples_ok (state : SlidingWindowState) (samples : List Int)
    (h : samples.length ≤ state.buffer.length - state.cursor) :
    appendSamples state samples =
      .ok ⟨writeAt state.buffer state.cursor samples, state.cursor + samples.length⟩ := by
  unfold appendSamples
  rw [if_neg (by omega)]

theorem innerFlush_eq (cfg : SlidingWindowConfig) (stride fuel : Nat)
    (state : SlidingWindowState) (ts : Int)
    (hstride : 1 ≤ stride) (hN : 1 ≤ state.buffer.length) (hfuel : 2 ≤ fuel) :
    innerFlush cfg stride fuel state ts =
      if state.cursor = state.buffer.length then
        .ok ([(emitWindow cfg stride state ts).1], shiftWindow state stride,
          ts + (cfg.strideMs : Int))
      else .ok ([], state, ts) := by
  obtain ⟨n, rfl⟩ : ∃ n, fuel = n + 1 + 1 := ⟨fuel - 2, by omega⟩
  by_cases h : state.cursor = state.buffer.length
  · have hlt : (shiftWindow state stride).cursor ≠ (shiftWindow state stride).buffer.length := by
      have h1 := shiftWindow_cursor_lt state stride hstride hN
      have h2 := shiftWindow_buffer_length state stride
      omega
    simp only [innerFlush, h, if_true, if_pos, emitWindow, hlt, if_neg, if_false]
  · simp only [innerFlush, h, if_false, if_neg]

theorem emitWindow_snd (cfg : SlidingWindowConfig) (k : Nat) (s : SlidingWindowState)
    (ts : Int) : (emitWindow cfg k s ts).2 = shiftWindow s k := rfl

/-- Master lemma for the outer loop of `processSamples`: with a positive
stride, a nonempty ring and a cursor within bounds, the loop returns
normally on sufficient fuel; the final cursor is strictly below capacity
whenever input was consumed; and every emitted window observed the cursor
at capacity before the slide and at `capacity - stride` (or `0`) after. -/
theorem processLoop_ok (cfg : SlidingWindowConfig) (stride : Nat) (hstride : 1 ≤ stride) :
    ∀ (fuel : Nat) (state : SlidingWindowState) (rest : List Int) (ts : Int),
      1 ≤ state.buffer.length →
      state.cursor ≤ state.buffer.length →
      rest.length + 2 + (if state.cursor = state.buffer.length then 1 else 0) ≤ fuel →
      ∃ ws st',
        processLoop cfg stride fuel state rest ts = .ok (ws, st') ∧
        st'.buffer.length = state.buffer.length ∧
        st'.cursor ≤ st'.buffer.length ∧
        (rest ≠ [] → st'.cursor < st'.buffer.length) ∧
        (rest = [] → ws = [] ∧ st' = state) ∧
        ∀ w ∈ ws, w.cursorBefore = state.buffer.length ∧
          w.cursorAfter = if state.buffer.length ≤ stride then 0
            else state.buffer.length - stride := by
  intro fuel
  induction fuel with
  | zero =>
    intro state rest ts hN hc hf
    exfalso
    split at hf <;> omega
  | succ n ih =>
    intro state rest ts hN hc hf
    by_cases hr : rest = []
    · subst hr
      refine ⟨[], state, ?_, rfl, hc, by simp, fun _ => ⟨rfl, rfl⟩, by simp⟩
      simp [processLoop]
    · obtain ⟨a, as, rfl⟩ := List.exists_cons_of_ne_nil hr
      have hre : (a :: as).isEmpty = false := rfl
      have hlen_cons : (a :: as).length = as.length + 1 := by simp
      by_cases hfull : state.buffer.length - state.cursor = 0
      · -- the ring is already full: flush one window first
        have hcN : state.cursor = state.buffer.length := by omega
        rw [if_pos hcN] at hf
        have hlen' := shiftWindow_buffer_length state stride
        have hlt' := shiftWindow_cursor_lt state stride hstride hN
        obtain ⟨ws, st', heq, hlen, hle, hlt, hnil, htrace⟩ :=
          ih (shiftWindow state stride) (a :: as) (ts + (cfg.strideMs : Int))
            (by omega) (by omega) (by rw [if_neg (by omega)]; omega)
        refine ⟨(emitWindow cfg stride state ts).1 :: ws, st', ?_, by omega, hle,
          fun _ => hlt (by simp), by simp, ?_⟩
        · simp only [processLoop, List.isEmpty_cons, Bool.false_eq_true, if_false,
            hfull, if_true, eq_self_iff_true, emitWindow_snd, heq]
        · intro w hw
          rcases List.mem_cons.mp hw with hw | hw
          · subst hw
            refine ⟨hcN, ?_⟩
            show (shiftWindow state stride).cursor = _
            rw [shiftWindow_cursor]
          · have h3 := htrace w hw
            rw [hlen'] at h3
            exact h3
      · -- room available: append, then flush any completed window
        have hcur_lt : state.cursor < state.buffer.length := by omega
        rw [if_neg (by omega)] at hf
        set tkv := min (state.buffer.length - state.cursor) (a :: as).length with htkv
        have htk_le : tkv ≤ state.buffer.length - state.cursor := Nat.min_le_left _ _
        have htk_le2 : tkv ≤ (a :: as).length := Nat.min_le_right _ _
        have htk_pos : 1 ≤ tkv := by omega
        have htake_len : ((a :: as).take tkv).length = tkv := by
          rw [List.length_take]
          omega
        have hdrop_len : ((a :: as).drop tkv).length = (a :: as).length - tkv := by
          rw [List.length_drop]
        set B1 := writeAt state.buffer state.cursor ((a :: as).take tkv) with hB1
        have hB1len : B1.length = state.buffer.length := by
          rw [hB1]
          exact writeAt_length _ _ _ (by omega)
        have happ : appendSamples state ((a :: as).take tkv) =
            .ok ⟨B1, state.cursor + ((a :: as).take tkv).length⟩ := by
          rw [hB1]
          exact appendSamples_ok _ _ (by omega)
        set st1 : SlidingWindowState := ⟨B1, state.cursor + ((a :: as).take tkv).length⟩
          with hst1
        have hst1buf : st1.buffer = B1 := rfl
        have hst1cur : st1.cursor = state.cursor + ((a :: as).take tkv).length := rfl
        have hst1len : st1.buffer.length = state.buffer.length := by
          rw [hst1buf]
          exact hB1len
        have hinner0 := innerFlush_eq cfg stride n st1 ts hstride (by omega) (by omega)
        by_cases hfull1 : st1.cursor = st1.buffer.length
        · -- the append filled the ring: one inner flush fires
          rw [if_pos hfull1] at hinner0
          set st2 := shiftWindow st1 stride with hst2
          have hst2len : st2.buffer.length = st1.buffer.length := by
            rw [hst2]
            exact shiftWindow_buffer_length st1 stride
          have hst2lt : st2.cursor < st2.buffer.length := by
            rw [hst2, shiftWindow_buffer_length]
            exact shiftWindow_cursor_lt st1 stride hstride (by omega)
          obtain ⟨ws2, st3, heq2, hlen2, hle2, hlt2, hnil2, htrace2⟩ :=
            ih st2 ((a :: as).drop tkv) (ts + (cfg.strideMs : Int))
              (by omega) (by omega) (by rw [if_neg (by omega)]; omega)
          refine ⟨(emitWindow cfg stride st1 ts).1 :: ws2, st3, ?_, by omega, hle2,
            fun _ => ?_, by simp, ?_⟩
          · simp only [processLoop, List.isEmpty_cons, Bool.false_eq_true, if_false,
              hfull, ite_false]
            rw [← htkv]
            simp only [happ, hinner0, hst2, heq2, List.singleton_append]
          · by_cases hdrop : (a :: as).drop tkv = []
            · obtain ⟨-, h2⟩ := hnil2 hdrop
              rw [h2]
              exact hst2lt
            · exact hlt2 hdrop
          · intro w hw
            rcases List.mem_cons.mp hw with hw | hw
            · subst hw
              constructor
              · show st1.cursor = state.buffer.length
                omega
              · show (shiftWindow st1 stride).cursor = _
                rw [shiftWindow_cursor, hst1len]
            · have h3 := htrace2 w hw
              rw [hst2len, hst1len] at h3
              exact h3
        · -- the append left room: the inner flush is a no-op
          rw [if_neg hfull1] at hinner0
          have hst1lt : st1.cursor < st1.buffer.length := by
            have h4 : st1.cursor ≤ st1.buffer.length := by
              rw [hst1cur, hst1len]
              omega
            omega
          obtain ⟨ws2, st3, heq2, hlen2, hle2, hlt2, hnil2, htrace2⟩ :=
            ih st1 ((a :: as).drop tkv) ts (by omega) (by omega)
              (by rw [if_neg (by omega)]; omega)
          refine ⟨ws2, st3, ?_, by omega, hle2, fun _ => ?_, by simp, ?_⟩
          · simp only [processLoop, List.isEmpty_cons, Bool.false_eq_true, if_false,
              hfull, ite_false]
            rw [← htkv]
            simp only [happ, hinner0, heq2, List.nil_append]
          · by_cases hdrop : (a :: as).drop tkv = []
            · obtain ⟨-, h2⟩ := hnil2 hdrop
              rw [h2]
              exact hst1lt
            · exact hlt2 hdrop
          · intro w hw
            have h3 := htrace2 w hw
            rw [hst1len] at h3
            exact h3

/-- Vals written at offset 0 over the whole ring replace it. -/
theorem writeAt_zero_full (buf vals : List Int) (h : vals.length = buf.length) :
    writeAt buf 0 vals = vals := by
  unfold writeAt
  rw [List.take_zero, List.nil_append, Nat.zero_add,
    List.drop_eq_nil_of_le (by omega), List.append_nil]

/-- Feeding exactly one window of samples into an empty ring closes exactly
one window and leaves the ring slid by one stride. -/
theorem processSamples_exact_fill (cfg : SlidingWindowConfig) (samples : List Int) (ts : Int)
    (hN : 1 ≤ windowSamplesOf cfg) (hs : 1 ≤ strideSamplesOf cfg)
    (hlen : samples.length = windowSamplesOf cfg) :
    processSamples (createEmptyState (windowSamplesOf cfg)) samples cfg ts =
      .ok ([(emitWindow cfg (strideSamplesOf cfg) ⟨samples, windowSamplesOf cfg⟩ ts).1],
        shiftWindow ⟨samples, windowSamplesOf cfg⟩ (strideSamplesOf cfg)) := by
  obtain ⟨x, xs, rfl⟩ : ∃ y ys, samples = y :: ys := by
    cases samples with
    | nil => simp at hlen; omega
    | cons y ys => exact ⟨y, ys, rfl⟩
  unfold processSamples
  rw [if_neg (by simp [createEmptyState])]
  obtain ⟨m, hm⟩ : ∃ m, 2 * (x :: xs).length + 4 = m + 1 + 1 :=
    ⟨2 * (x :: xs).length + 2, by omega⟩
  rw [hm]
  simp only [processLoop, createEmptyState, List.isEmpty_cons, Bool.false_eq_true,
    if_false, List.length_replicate]
  rw [if_neg (by omega)]
  have htkv : min (windowSamplesOf cfg - 0) (x :: xs).length = (x :: xs).length := by
    omega
  rw [htkv, List.take_length]
  have happ : appendSamples ⟨List.replicate (windowSamplesOf cfg) 0, 0⟩ (x :: xs) =
      .ok ⟨x :: xs, windowSamplesOf cfg⟩ := by
    have h0 := appendSamples_ok ⟨List.replicate (windowSamplesOf cfg) 0, 0⟩ (x :: xs)
      (by simp only [List.length_replicate]; omega)
    rw [h0]
    have hw := writeAt_zero_full (List.replicate (windowSamplesOf cfg) 0) (x :: xs)
      (by simp only [List.length_replicate]; omega)
    simp only [hw, Nat.zero_add, hlen]
  have hinner := innerFlush_eq cfg (strideSamplesOf cfg) (m + 1)
    ⟨x :: xs, windowSamplesOf cfg⟩ ts hs (by simp only []; omega) (by omega)
  rw [if_pos (show (⟨x :: xs, windowSamplesOf cfg⟩ : SlidingWindowState).cursor =
    (⟨x :: xs, windowSamplesOf cfg⟩ : SlidingWindowState).buffer.length from by
      simp only []
      omega)] at hinner
  simp only [happ, hinner, List.drop_length, List.isEmpty_nil, if_true,
    eq_self_iff_true, List.append_nil]


theorem zero_capacity_loop_all_fuel : processLoopDivergesAtZeroCapacity := by
  intro fuel
  induction fuel with
  | zero => intro ts; rfl
  | succ n ih =>
    intro ts
    simp only [processLoop, List.isEmpty_cons, Bool.false_eq_true, if_false]
    rw [if_pos (show (createEmptyState 0).buffer.length - (createEmptyState 0).cursor = 0
      from rfl)]
    rw [emitWindow_snd,
      show shiftWindow (createEmptyState 0) (strideSamplesOf zeroCapacityConfig) =
        createEmptyState 0 from rfl,
      ih (ts + (zeroCapacityConfig.strideMs : Int))]

/-- C5 (amended): for a sliding-window state whose buffer matches the
configured window sample count, with window and stride sample counts at
least 1 and the cursor within bounds, `processSamples` returns normally;
every emitted window saw the cursor at the capacity `N` and, right after
the slide, at `N - strideSamples` (or `0` when `strideSamples ≥ N`);
after consuming any input the cursor is strictly below `N`; and appending
exactly `N` samples to an empty state yields exactly one emission with
that cursor afterwards. -/
theorem c5_window_emission (cfg : SlidingWindowConfig) (state : SlidingWindowState)
    (samples : List Int) (ts : Int)
    (hcap : state.buffer.length = windowSamplesOf cfg)
    (hN : 1 ≤ windowSamplesOf cfg)
    (hs : 1 ≤ strideSamplesOf cfg)
    (hcur : state.cursor ≤ state.buffer.length) :
    ∃ ws st', processSamples state samples cfg ts = Except.ok (ws, st')
      ∧ (∀ w ∈ ws, w.cursorBefore = windowSamplesOf cfg ∧
          w.cursorAfter = if windowSamplesOf cfg ≤ strideSamplesOf cfg then 0
            else windowSamplesOf cfg - strideSamplesOf cfg)
      ∧ (samples ≠ [] → st'.cursor < windowSamplesOf cfg)
      ∧ (state = createEmptyState (windowSamplesOf cfg) →
          samples.length = windowSamplesOf cfg →
          ws.length = 1 ∧ st'.cursor = (if windowSamplesOf cfg ≤ strideSamplesOf cfg then 0
            else windowSamplesOf cfg - strideSamplesOf cfg)) := by
  have hps : processSamples state samples cfg ts =
      processLoop cfg (strideSamplesOf cfg) (2 * samples.length + 4) state samples ts := by
    unfold processSamples
    rw [if_neg (by omega)]
  obtain ⟨ws, st', heq, hlen, hle, hlt, hnil, htrace⟩ :=
    processLoop_ok cfg (strideSamplesOf cfg) hs (2 * samples.length + 4) state samples ts
      (by omega) hcur (by split <;> omega)
  refine ⟨ws, st', by rw [hps]; exact heq, ?_, ?_, ?_⟩
  · intro w hw
    have h3 := htrace w hw
    rw [hcap] at h3
    exact h3
  · intro hne
    have h4 := hlt hne
    omega
  · intro h1 h2
    have hfill := processSamples_exact_fill cfg samples ts hN hs h2
    rw [h1] at hps heq
    rw [hfill] at hps
    rw [heq] at hps
    have hinj := Except.ok.inj hps
    have hws : ws = [(emitWindow cfg (strideSamplesOf cfg)
        ⟨samples, windowSamplesOf cfg⟩ ts).1] := (congrArg Prod.fst hinj).symm
    have hst : st' = shiftWindow ⟨samples, windowSamplesOf cfg⟩ (strideSamplesOf cfg) :=
      (congrArg Prod.snd hinj).symm
    constructor
    · rw [hws]
      rfl
    · rw [hst, shiftWindow_cursor]
      show (if samples.length ≤ strideSamplesOf cfg then 0
        else samples.length - strideSamplesOf cfg) = _
      rw [h2]

/-- C5 witness: instantiation at a 4-sample window with stride 2. -/
theorem c5_window_emission_witness :
    ∃ ws st',
      processSamples (createEmptyState (windowSamplesOf ⟨1000, 1, 4, 2⟩)) [1, 2, 3, 4]
          ⟨1000, 1, 4, 2⟩ 0 = Except.ok (ws, st')
      ∧ (∀ w ∈ ws, w.cursorBefore = windowSamplesOf ⟨1000, 1, 4, 2⟩ ∧
          w.cursorAfter = if windowSamplesOf ⟨1000, 1, 4, 2⟩ ≤ strideSamplesOf ⟨1000, 1, 4, 2⟩
            then 0 else windowSamplesOf ⟨1000, 1, 4, 2⟩ - strideSamplesOf ⟨1000, 1, 4, 2⟩)
      ∧ ([1, 2, 3, 4] ≠ ([] : List Int) → st'.cursor < windowSamplesOf ⟨1000, 1, 4, 2⟩)
      ∧ (createEmptyState (windowSamplesOf ⟨1000, 1, 4, 2⟩) =
            createEmptyState (windowSamplesOf ⟨1000, 1, 4, 2⟩) →
          ([1, 2, 3, 4] : List Int).length = windowSamplesOf ⟨1000, 1, 4, 2⟩ →
          ws.length = 1 ∧ st'.cursor =
            (if windowSamplesOf ⟨1000, 1, 4, 2⟩ ≤ strideSamplesOf ⟨1000, 1, 4, 2⟩ then 0
              else windowSamplesOf ⟨1000, 1, 4, 2⟩ - strideSamplesOf ⟨1000, 1, 4, 2⟩)) :=
  c5_window_emission ⟨1000, 1, 4, 2⟩ (createEmptyState (windowSamplesOf ⟨1000, 1, 4, 2⟩))
    [1, 2, 3, 4] 0 (by decide) (by decide) (by decide) (by decide)

/-- C5 counterexample: at the configured window sample count `N = 0`
(windowMs 0) with stride 2, appending exactly `N` samples (none) to an
empty state yields zero emissions, not exactly one. -/
theorem c5_window_emission_counterexample :
    windowSamplesOf zeroCapacityConfig = 0
    ∧ 1 ≤ strideSamplesOf zeroCapacityConfig
    ∧ processSamples (createEmptyState (windowSamplesOf zeroCapacityConfig)) []
        zeroCapacityConfig 0 = Except.ok ([], createEmptyState 0) :=
  ⟨rfl, by decide, by with_unfolding_all rfl⟩

/-- C10 (amended): for a sliding-window state whose buffer matches the
configured window sample count, with window and stride sample counts at
least 1 and the cursor within bounds, `processSamples` terminates on every
finite input and throws neither the overflow error nor any other: it
returns normally. -/
theorem c10_no_overflow (cfg : SlidingWindowConfig) (state : SlidingWindowState)
    (samples : List Int) (ts : Int)
    (hcap : state.buffer.length = windowSamplesOf cfg)
    (hcur : state.cursor ≤ state.buffer.length)
    (hs : 1 ≤ strideSamplesOf cfg)
    (hN : 1 ≤ windowSamplesOf cfg) :
    ∃ out, processSamples state samples cfg ts = Except.ok out := by
  obtain ⟨ws, st', heq, -⟩ :=
    processLoop_ok cfg (strideSamplesOf cfg) hs (2 * samples.length + 4) state samples ts
      (by omega) hcur (by split <;> omega)
  refine ⟨(ws, st'), ?_⟩
  unfold processSamples
  rw [if_neg (by omega)]
  exact heq

/-- C10 witness: instantiation at a 4-sample window with stride 2 and six
input samples (which closes two windows). -/
theorem c10_no_overflow_witness :
    ∃ out, processSamples (createEmptyState (windowSamplesOf ⟨1000, 1, 4, 2⟩))
      [1, 2, 3, 4, 5, 6] ⟨1000, 1, 4, 2⟩ 0 = Except.ok out :=
  c10_no_overflow ⟨1000, 1, 4, 2⟩ (createEmptyState (windowSamplesOf ⟨1000, 1, 4, 2⟩))
    [1, 2, 3, 4, 5, 6] 0 (by decide) (by decide) (by decide) (by decide)

/-- C10 counterexample: at the configured window sample count `0`
(windowMs 0, a state satisfying every hypothesis of the claim) with one
pending sample, the outer loop of `processSamples` diverges: it exhausts
every fuel, and `processSamples` itself reports the divergence marker. -/
theorem c10_no_overflow_counterexample :
    processLoopDivergesAtZeroCapacity
    ∧ processSamples (createEmptyState 0) [0] zeroCapacityConfig 0 =
        Except.error AudioError.outOfFuel :=
  ⟨zero_capacity_loop_all_fuel, by with_unfolding_all rfl⟩

theorem resampleLinear_ne_unsupported (p : List Int) (fr tr : Int) (a b : Nat) :
    resampleLinear p fr tr ≠ Except.error (AudioError.unsupportedChannelConversion a b) := by
  unfold resampleLinear
  split
  · simp
  · split <;> simp

theorem resampleLinear_ok_of_pos (p : List Int) (fr tr : Int) (hf : 0 < fr) (ht : 0 < tr) :
    ∃ out, resampleLinear p fr tr = Except.ok out := by
  unfold resampleLinear
  split
  · exact ⟨p, rfl⟩
  · rw [if_neg (by omega)]
    exact ⟨_, rfl⟩

theorem convertAudioFormat_cases (input : List Int) (fc tc : Nat) (fr tr : Int) :
    convertAudioFormat input fc fr tc tr =
      if fc = 2 ∧ tc = 1 then
        (if fr ≠ tr then resampleLinear (stereoToMono input) fr tr
          else .ok (stereoToMono input))
      else if fc ≠ tc then .error (.unsupportedChannelConversion fc tc)
      else (if fr ≠ tr then resampleLinear input fr tr else .ok input) := by
  unfold convertAudioFormat
  by_cases h1 : fc = 2 ∧ tc = 1
  · rw [if_pos h1, if_pos h1]
  · rw [if_neg h1, if_neg h1]
    by_cases h2 : fc ≠ tc
    · rw [if_pos h2, if_pos h2]
    · rw [if_neg h2, if_neg h2]

/-- C7 (amended): `convertAudioFormat` fails with the
unsupported-channel-layout error exactly for the channel pairs other than
2→1 and the identity pairs ch→ch; for 2→1 and identity pairs (with
positive rates) it returns converted samples. -/
theorem c7_unsupported_channels (input : List Int) (fc tc : Nat) (fr tr : Int) :
    (convertAudioFormat input fc fr tc tr =
        Except.error (AudioError.unsupportedChannelConversion fc tc)
      ↔ fc ≠ tc ∧ ¬(fc = 2 ∧ tc = 1))
    ∧ (0 < fr → 0 < tr → (fc = 2 ∧ tc = 1 ∨ fc = tc) →
        ∃ out, convertAudioFormat input fc fr tc tr = Except.ok out) := by
  rw [convertAudioFormat_cases]
  constructor
  · by_cases h1 : fc = 2 ∧ tc = 1
    · rw [if_pos h1]
      constructor
      · intro h
        exfalso
        revert h
        split
        · exact resampleLinear_ne_unsupported _ _ _ _ _
        · simp
      · rintro ⟨-, hno⟩
        exact absurd h1 hno
    · rw [if_neg h1]
      by_cases h2 : fc ≠ tc
      · rw [if_pos h2]
        exact ⟨fun _ => ⟨h2, h1⟩, fun _ => rfl⟩
      · rw [if_neg h2]
        constructor
        · intro h
          exfalso
          revert h
          split
          · exact resampleLinear_ne_unsupported _ _ _ _ _
          · simp
        · rintro ⟨hne, -⟩
          exact absurd (not_not.mp h2) hne
  · intro hf ht hok
    by_cases h1 : fc = 2 ∧ tc = 1
    · rw [if_pos h1]
      split
      · exact resampleLinear_ok_of_pos _ _ _ hf ht
      · exact ⟨_, rfl⟩
    · have h2 : fc = tc := by
        rcases hok with h | h
        · exact absurd h h1
        · exact h
      rw [if_neg h1, if_neg (by omega)]
      split
      · exact resampleLinear_ok_of_pos _ _ _ hf ht
      · exact ⟨_, rfl⟩

/-- C7 witness: a stereo-to-mono conversion with equal rates succeeds, and
the error characterization holds at the pair 3→2. -/
theorem c7_unsupported_channels_witness :
    (∃ out, convertAudioFormat [5, 7, 9, 11] 2 16000 1 16000 = Except.ok out)
    ∧ convertAudioFormat [5, 7] 3 16000 2 16000 =
        Except.error (AudioError.unsupportedChannelConversion 3 2) :=
  ⟨(c7_unsupported_channels [5, 7, 9, 11] 2 1 16000 16000).2 (by decide) (by decide)
      (Or.inl ⟨rfl, rfl⟩),
    (c7_unsupported_channels [5, 7] 3 2 16000 16000).1.mpr ⟨by decide, by decide⟩⟩

/-- C7 counterexample: the identity pair 2→2, which the claim asserts must
fail, returns the samples unchanged. -/
theorem c7_unsupported_channels_counterexample :
    convertAudioFormat [5, 7] 2 16000 2 16000 = Except.ok [5, 7] := by
  with_unfolding_all rfl

/-- C9: resampling with equal source and target rates is the bit-exact
identity for every sample list and positive rate. -/
theorem c9_resample_identity (input : List Int) (r : Int) (h : 0 < r) :
    resampleLinear input r r = Except.ok input := by
  unfold resampleLinear
  rw [if_pos rfl]

/-- C9 witness: identity resampling at 16 kHz. -/
theorem c9_resample_identity_witness :
    resampleLinear [1, -2, 3] 16000 16000 = Except.ok [1, -2, 3] :=
  c9_resample_identity [1, -2, 3] 16000 (by decide)

/-! Claim theorems about the string pipeline. -/

theorem string_data_nil_iff (s : String) : s.data = [] ↔ s = "" := by
  constructor
  · intro h
    cases s with
    | mk data =>
      subst h
      rfl
  · intro h
    rw [h]

/-- C2: with a non-empty normalized prior, full containment of the
normalized STT text returns empty, and otherwise a full normalized-prefix
match returns the trimmed original-cased suffix of the STT text after the
first `|P|` characters; in particular the spec's literal example. -/
theorem c2_extract_overlap (p c : String) (hp : normText p ≠ "") :
    (strIncludes (normText p) (normText c) = true → extractNewText p c = "")
    ∧ (strIncludes (normText p) (normText c) = false →
        strStarts (normText c) (normText p) = true →
        extractNewText p c = jsTrim (strDropn (jsTrim c) (strLen (normText p))))
    ∧ extractNewText ("the quick brown fox") ("The quick brown fox jumps over")
        = "jumps over" := by
  refine ⟨?_, ?_, by with_unfolding_all decide⟩
  · intro h
    unfold extractNewText
    rw [if_neg hp]
    by_cases hc : normText c = ""
    · rw [if_pos hc]
    · rw [if_neg hc, if_pos h]
  · intro h hstart
    have hc : normText c ≠ "" := by
      intro hcc
      rw [hcc] at hstart
      unfold strStarts at hstart
      cases hd : (normText p).data with
      | nil => exact hp ((string_data_nil_iff (normText p)).mp hd)
      | cons y ys =>
        rw [hd] at hstart
        simp [List.isPrefixOf] at hstart
    unfold extractNewText
    rw [if_neg hp, if_neg hc, if_neg (by rw [h]; simp), if_pos hstart]

/-- C2 witness: the full-prefix branch at the spec's literal example. -/
theorem c2_extract_overlap_witness :
    extractNewText ("the quick brown fox") ("The quick brown fox jumps over")
      = jsTrim (strDropn (jsTrim ("The quick brown fox jumps over"))
          (strLen (normText ("the quick brown fox")))) :=
  (c2_extract_overlap ("the quick brown fox") ("The quick brown fox jumps over")
      (by with_unfolding_all decide)).2.1
    (by with_unfolding_all decide) (by with_unfolding_all decide)

/-- C3: when rules 1-5 of the extractor fail and more than 70 percent of
the unique normalized words of the STT text already occur in the prior,
with the STT text no longer than the prior, the extractor returns empty;
in particular the spec's literal example. -/
theorem c3_redundancy_skip (p c : String)
    (h1 : normText p ≠ "") (h2 : normText c ≠ "")
    (h3 : strIncludes (normText p) (normText c) = false)
    (h4 : strStarts (normText c) (normText p) = false)
    (h5 : findWordOverlap (splitSp (normText p)) (splitSp (normText c))
      (min (min (splitSp (normText p)).length (splitSp (normText c)).length) 50) < 3)
    (h6 : findCharOverlap (strTail (normText p) 200) (strTake (normText c) 200)
      (min (strLen (strTail (normText p) 200)) (strLen (strTake (normText c) 200))) < 20)
    (h7 : 7 * ((splitSp (normText c)).dedup).length
      < 10 * (((splitSp (normText c)).dedup).filter
          fun w => (splitSp (normText p)).contains w).length)
    (h8 : (splitSp (normText c)).length ≤ (splitSp (normText p)).length) :
    extractNewText p c = ""
    ∧ extractNewText ("we need to measure the pressure") ("we need the pressure") = "" := by
  refine ⟨?_, by with_unfolding_all decide⟩
  have h5' : ¬(3 ≤ findWordOverlap (splitSp (normText p)) (splitSp (normText c))
      (min (min (splitSp (normText p)).length (splitSp (normText c)).length) 50)) := by
    omega
  have h6' : ¬(20 ≤ findCharOverlap (strTail (normText p) 200) (strTake (normText c) 200)
      (min (strLen (strTail (normText p) 200)) (strLen (strTake (normText c) 200)))) := by
    omega
  simp only [extractNewText, h1, h2, h3, h4, h5', h6', h7, h8, Bool.false_eq_true,
    if_false, ite_false, and_self, if_true, ite_true, eq_self_iff_true, not_false_iff]

/-- C3 witness: the redundancy branch at the spec's literal example. -/
theorem c3_redundancy_skip_witness :
    extractNewText ("we need to measure the pressure") ("we need the pressure") = "" :=
  (c3_redundancy_skip ("we need to measure the pressure") ("we need the pressure")
      (by with_unfolding_all decide) (by with_unfolding_all decide)
      (by with_unfolding_all decide) (by with_unfolding_all decide)
      (by with_unfolding_all decide) (by with_unfolding_all decide)
      (by with_unfolding_all decide) (by with_unfolding_all decide)).1

/-- C4 (amended): the repeated-phrase scan never collapses phrases shorter
than three words (the inner search returns 0 or a length of at least 3),
and a three-word immediate repeat is collapsed to its first copy, as in
cleanup of a doubled three-word phrase. -/
theorem c4_phrase_cleanup :
    (∀ (words : List String) (i n : Nat),
      findRepeatLen words i n = 0 ∨ 3 ≤ findRepeatLen words i n)
    ∧ cleanupText ("the small nodule the small nodule is visible.") []
        = "the small nodule is visible." := by
  refine ⟨?_, by with_unfolding_all decide⟩
  intro words i n
  induction n with
  | zero => exact Or.inl rfl
  | succ m ih =>
    simp only [findRepeatLen]
    split
    · exact Or.inl rfl
    · split
      · exact ih
      · split
        · right
          omega
        · exact ih

/-- C4 counterexample: the spec's literal example is a two-word repeat,
which the scan (minimum phrase length 3) leaves unchanged instead of
collapsing to the claimed result. -/
theorem c4_phrase_cleanup_counterexample :
    cleanupText ("the nodule the nodule is visible.") []
        = "the nodule the nodule is visible."
    ∧ cleanupText ("the nodule the nodule is visible.") [] ≠ "the nodule is visible." := by
  with_unfolding_all decide


/-- C8 (amended): a chunk whose STT text trims to empty emits no segment
and leaves every global except the processed counter unchanged; that
counter increments by one. -/
theorem c8_empty_text (threshold : ℚ) (st : SttState) (meta : ChunkMeta)
    (responseText : String) (segments : List WhisperSegment)
    (h : jsTrim responseText = "") :
    processChunkPure threshold st meta responseText segments =
      ({ st with totalChunksProcessed := st.totalChunksProcessed + 1 }, []) := by
  unfold processChunkPure transcribeChunkPure
  rw [if_pos h]
  rfl

/-- C8 witness: the empty response at the initial state. -/
theorem c8_empty_text_witness :
    processChunkPure (mkRat 9 20) initialSttState mkMeta ("") [] =
      ({ initialSttState with totalChunksProcessed := 1 }, []) :=
  c8_empty_text (mkRat 9 20) initialSttState mkMeta ("") [] (by with_unfolding_all decide)

/-- C8 counterexample: on an empty STT text the pipeline emits nothing but
the chunks-processed counter, which the claim asserts unchanged, moves
from 0 to 1. -/
theorem c8_empty_text_counterexample :
    (processChunkPure (mkRat 9 20) initialSttState mkMeta ("") []).2 = []
    ∧ (processChunkPure (mkRat 9 20) initialSttState mkMeta ("") []).1.totalChunksProcessed
        = 1 := by
  with_unfolding_all decide

/-- C1 (amended): a window whose normalized STT text is contained in the
normalized combined context (broadcast history plus sentence buffer) is
skipped entirely: no segment is emitted and only the two counters move.
The original 200-character-tail invariant fails on the code (see the
counterexample). -/
theorem c1_containment_skip (threshold : ℚ) (st : SttState) (meta : ChunkMeta)
    (responseText : String) (segments : List WhisperSegment)
    (h1 : jsTrim responseText ≠ "")
    (h2 : normText (combinedOf st) ≠ "")
    (h3 : strIncludes (normText (combinedOf st)) (normText (jsTrim responseText)) = true) :
    processChunkPure threshold st meta responseText segments =
      ({ st with totalChunksProcessed := st.totalChunksProcessed + 1,
                 totalChunksSkipped := st.totalChunksSkipped + 1 }, []) := by
  have hnew : newTextOf st responseText = "" := by
    unfold newTextOf extractNewText
    rw [if_neg h2]
    by_cases hc : normText (jsTrim responseText) = ""
    · rw [if_pos hc]
    · rw [if_neg hc, if_pos h3]
  unfold processChunkPure transcribeChunkPure
  rw [if_neg h1, if_pos hnew]
  rfl

/-- C1 witness: a contained window at a history holding its text. -/
theorem c1_containment_skip_witness :
    processChunkPure (mkRat 9 20) ⟨"the cat sat.", "", 1, 0, 0, []⟩ mkMeta ("The cat") [] =
      ({ (⟨"the cat sat.", "", 1, 0, 0, []⟩ : SttState) with
          totalChunksProcessed := 1, totalChunksSkipped := 1 }, []) :=
  c1_containment_skip (mkRat 9 20) ⟨"the cat sat.", "", 1, 0, 0, []⟩ mkMeta ("The cat") []
    (by with_unfolding_all decide) (by with_unfolding_all decide)
    (by with_unfolding_all decide)

/-- C1 counterexample: two consecutive processed windows both emit, and
the normalized text of the second emitted segment is a substring of the
last 200 normalized characters of `lastBroadcastedText` as it stood
immediately before that emission. -/
theorem c1_containment_skip_counterexample :
    ((processChunkPure (mkRat 9 20) initialSttState mkMeta
        ("He said yes! Indeed. More stuff here to pad.") []).2.map TranscriptSegment.text
      = ["He said yes! Indeed. More stuff here to pad."])
    ∧ ((processChunkPure (mkRat 9 20)
        (processChunkPure (mkRat 9 20) initialSttState mkMeta
          ("He said yes! Indeed. More stuff here to pad.") []).1 mkMeta
        ("yes!! Indeed.") []).2.map TranscriptSegment.text = ["yes! Indeed."])
    ∧ strIncludes
        (strTail (normText ((processChunkPure (mkRat 9 20) initialSttState mkMeta
          ("He said yes! Indeed. More stuff here to pad.") []).1.lastBroadcastedText)) 200)
        (normText ("yes! Indeed.")) = true := by
  with_unfolding_all decide

theorem isTermChar_not_ws (c : Char) (h : isTermChar c = true) : isWsChar c = false := by
  have h3 : (c = ('.') ∨ c = ('!')) ∨ c = ('?') := by
    simpa [isTermChar, Bool.or_eq_true, decide_eq_true_eq] using h
  rcases h3 with (rfl | rfl) | rfl <;> rfl

theorem trimChars_eq_nil_imp (l : List Char) (h : trimChars l = []) :
    ∀ c ∈ l, isWsChar c = true := by
  unfold trimChars at h
  rw [List.reverse_eq_nil_iff, List.dropWhile_eq_nil_iff] at h
  intro c hc
  rw [← List.takeWhile_append_dropWhile (p := isWsChar) (l := l)] at hc
  rcases List.mem_append.mp hc with hc | hc
  · exact List.mem_takeWhile_imp hc
  · exact h c (List.mem_reverse.mpr hc)

theorem jsTrim_ne_empty_of_mem (s : String) (c : Char) (hc : c ∈ s.data)
    (hw : isWsChar c = false) : jsTrim s ≠ "" := by
  intro h
  have hdata : trimChars s.data = [] := by
    have := congrArg String.data h
    exact this
  have := trimChars_eq_nil_imp s.data hdata c hc
  rw [hw] at this
  exact Bool.noConfusion this

theorem sentenceMatchLen_spec (l : List Char) (h : sentenceMatchLen l ≠ 0) :
    sentenceMatchLen l =
      (l.takeWhile fun c => !isTermChar c).length +
        ((l.drop (l.takeWhile fun c => !isTermChar c).length).takeWhile isTermChar).length
    ∧ 1 ≤ ((l.drop (l.takeWhile fun c => !isTermChar c).length).takeWhile isTermChar).length := by
  by_cases hb : (l.takeWhile fun c => !isTermChar c).length = 0
  · exfalso
    apply h
    simp [sentenceMatchLen, hb]
  · by_cases ht : ((l.drop (l.takeWhile fun c => !isTermChar c).length).takeWhile
        isTermChar).length = 0
    · exfalso
      apply h
      simp [sentenceMatchLen, hb, ht]
    · refine ⟨?_, by omega⟩
      simp only [sentenceMatchLen, hb, ht, if_false, ite_false]
      cases hd : l.drop ((l.takeWhile fun c => !isTermChar c).length +
          ((l.drop (l.takeWhile fun c => !isTermChar c).length).takeWhile
            isTermChar).length) with
      | nil => rfl
      | cons d t =>
        by_cases hww : isWsChar d = true
        · simp only [hww, if_true, ite_true]
        · exfalso
          apply h
          simp only [sentenceMatchLen, hb, ht, if_false, ite_false, hd, hww,
            Bool.false_eq_true]

theorem take_match_has_term (l : List Char) (h : sentenceMatchLen l ≠ 0) :
    ∃ c, c ∈ l.take (sentenceMatchLen l) ∧ isTermChar c = true := by
  obtain ⟨heq, hterm⟩ := sentenceMatchLen_spec l h
  cases hd : l.drop (l.takeWhile fun c => !isTermChar c).length with
  | nil =>
    rw [hd] at hterm
    simp at hterm
  | cons c t =>
    have hterm2 := hterm
    rw [hd] at hterm2
    have hcterm : isTermChar c = true := by
      by_cases hc : isTermChar c = true
      · exact hc
      · simp [List.takeWhile_cons, hc] at hterm2
    refine ⟨c, ?_, hcterm⟩
    rw [heq, List.take_add, hd]
    apply List.mem_append_right
    obtain ⟨k, hk⟩ : ∃ k, ((c :: t).takeWhile isTermChar).length = k + 1 :=
      ⟨((c :: t).takeWhile isTermChar).length - 1, by omega⟩
    rw [hk, List.take_succ_cons]
    exact List.mem_cons_self _ _

theorem scanSentencesAux_mem_term :
    ∀ (fuel : Nat) (l m : List Char) (rest : List (List Char)),
      scanSentencesAux fuel l = m :: rest → ∃ c ∈ m, isTermChar c = true := by
  intro fuel
  induction fuel with
  | zero =>
    intro l m rest h
    simp [scanSentencesAux] at h
  | succ n ih =>
    intro l m rest h
    cases l with
    | nil => simp [scanSentencesAux] at h
    | cons a as =>
      by_cases hz : sentenceMatchLen (a :: as) = 0
      · rw [show scanSentencesAux (n + 1) (a :: as) = scanSentencesAux n as from by
          simp [scanSentencesAux, hz]] at h
        exact ih as m rest h
      · rw [show scanSentencesAux (n + 1) (a :: as) =
            (a :: as).take (sentenceMatchLen (a :: as)) ::
              scanSentencesAux n ((a :: as).drop (sentenceMatchLen (a :: as))) from by
          simp [scanSentencesAux, hz]] at h
        injection h with h1 h2
        obtain ⟨c, hc, hct⟩ := take_match_has_term (a :: as) hz
        exact ⟨c, h1 ▸ hc, hct⟩

theorem string_append_data (a b : String) : (a ++ b).data = a.data ++ b.data := by
  cases a
  cases b
  rfl

/-- The sentence matcher finds a span exactly when `splitSentences` yields
non-empty complete sentences: every match carries a terminator character,
which is not whitespace and therefore survives the trim of the joined
match text. -/
theorem completeSentences_ne_empty_iff (text : String) :
    (splitSentences text).completeSentences ≠ "" ↔ scanSentences text.data ≠ [] := by
  constructor
  · intro h hscan
    apply h
    by_cases h0 : text = ""
    · simp [splitSentences, h0]
    · simp [splitSentences, h0, hscan]
  · intro hscan
    have h0 : text ≠ "" := by
      intro h0
      apply hscan
      rw [h0]
      rfl
    obtain ⟨m, rest, hm⟩ : ∃ m rest, scanSentences text.data = m :: rest := by
      cases hs : scanSentences text.data with
      | nil => exact absurd hs hscan
      | cons m rest => exact ⟨m, rest, rfl⟩
    obtain ⟨c, hcm, hct⟩ := scanSentencesAux_mem_term text.data.length text.data m rest hm
    have hcjoin : c ∈ (joinWithSpace ((scanSentences text.data).map String.mk)).data := by
      rw [hm]
      cases rest with
      | nil => simpa [joinWithSpace] using hcm
      | cons r rs =>
        simp only [List.map_cons, joinWithSpace, string_append_data, List.mem_append]
        exact Or.inl (Or.inl hcm)
    have hsplit : (splitSentences text).completeSentences
        = jsTrim (joinWithSpace ((scanSentences text.data).map String.mk)) := by
      simp [splitSentences, h0, hm]
    rw [hsplit]
    exact jsTrim_ne_empty_of_mem _ c hcjoin (isTermChar_not_ws c hct)

theorem splitSentences_eq (text : String)
    (h : (splitSentences text).completeSentences ≠ "") :
    (splitSentences text).completeSentences
        = jsTrim (joinWithSpace ((scanSentences text.data).map String.mk))
      ∧ (splitSentences text).remainder
        = jsTrim (strDropn text (strLen (jsTrim (joinWithSpace
            ((scanSentences text.data).map String.mk))))) := by
  by_cases h0 : text = ""
  · exfalso
    apply h
    simp [splitSentences, h0]
  · by_cases hm : ((scanSentences text.data).map String.mk).isEmpty = true
    · exfalso
      apply h
      simp [splitSentences, h0, hm]
    · constructor <;> simp [splitSentences, h0, hm]

/-- C6 (amended): once a window contributes non-empty new text, the buffer
releases exactly when the sentence matcher extracts a non-empty
`completeSentences` from the post-append buffer and the blended confidence
reaches the threshold; on release the buffer becomes the trimmed tail of
the old buffer past the joined matches, the confidence resets to
`blend(1, c_new)`, and the released text is the regex matches joined by
single spaces and trimmed; otherwise the buffer and blended confidence are
kept and nothing is emitted.  The matcher finds a span exactly when
`completeSentences` is non-empty (final conjunct). -/
theorem c6_sentence_release (threshold : ℚ) (st : SttState) (meta : ChunkMeta)
    (responseText : String) (segments : List WhisperSegment)
    (h1 : jsTrim responseText ≠ "")
    (h2 : newTextOf st responseText ≠ "")
    (h3 : actualNewOf st responseText ≠ "") :
    ((splitSentences (bufAfterOf st responseText)).completeSentences ≠ ""
        ∧ threshold ≤ blendedOf segments st responseText →
      (transcribeChunkPure threshold st meta responseText segments).1.sentenceBuffer
          = (splitSentences (bufAfterOf st responseText)).remainder
        ∧ (transcribeChunkPure threshold st meta responseText segments).1.sentenceConfidence
          = blendConfidence 1 (confNewOf segments st responseText)
        ∧ (splitSentences (bufAfterOf st responseText)).completeSentences
          = jsTrim (joinWithSpace ((scanSentences
              (bufAfterOf st responseText).data).map String.mk))
        ∧ (splitSentences (bufAfterOf st responseText)).remainder
          = jsTrim (strDropn (bufAfterOf st responseText)
              (strLen (jsTrim (joinWithSpace ((scanSentences
                (bufAfterOf st responseText).data).map String.mk))))))
    ∧ (¬((splitSentences (bufAfterOf st responseText)).completeSentences ≠ ""
          ∧ threshold ≤ blendedOf segments st responseText) →
      (transcribeChunkPure threshold st meta responseText segments).1.sentenceBuffer
          = bufAfterOf st responseText
        ∧ (transcribeChunkPure threshold st meta responseText segments).1.sentenceConfidence
          = blendedOf segments st responseText
        ∧ (transcribeChunkPure threshold st meta responseText segments).2 = [])
    ∧ ((splitSentences (bufAfterOf st responseText)).completeSentences ≠ ""
        ↔ scanSentences (bufAfterOf st responseText).data ≠ []) := by
  refine ⟨?_, ?_, completeSentences_ne_empty_iff _⟩
  · rintro ⟨hcs, hth⟩
    have hsplit := splitSentences_eq (bufAfterOf st responseText) hcs
    have hcond : ¬((splitSentences (bufAfterOf st responseText)).completeSentences = ""
        ∨ blendedOf segments st responseText < threshold) := by
      rintro (hA | hB)
      · exact hcs hA
      · exact absurd hth (not_le.mpr hB)
    by_cases hcl : cleanupText
        (splitSentences (bufAfterOf st responseText)).completeSentences segments = ""
    · simp only [transcribeChunkPure, h1, h2, h3, hcond, hcl, if_false, ite_false,
        if_true, ite_true, not_false_iff]
      exact ⟨trivial, trivial, hsplit.1, hsplit.2⟩
    · simp only [transcribeChunkPure, h1, h2, h3, hcond, hcl, if_false, ite_false,
        if_true, ite_true, not_false_iff]
      exact ⟨trivial, trivial, hsplit.1, hsplit.2⟩
  · intro hnot
    have hcond : (splitSentences (bufAfterOf st responseText)).completeSentences = ""
        ∨ blendedOf segments st responseText < threshold := by
      by_cases hA : (splitSentences (bufAfterOf st responseText)).completeSentences = ""
      · exact Or.inl hA
      · by_cases hB : blendedOf segments st responseText < threshold
        · exact Or.inr hB
        · exact absurd ⟨hA, not_lt.mp hB⟩ hnot
    simp only [transcribeChunkPure, h1, h2, h3, hcond, if_false, ite_false, if_true,
      ite_true, not_false_iff]
    exact ⟨trivial, trivial, trivial⟩

/-- C6 witness: a release at the initial state with a complete sentence
plus a trailing fragment. -/
theorem c6_sentence_release_witness :
    (transcribeChunkPure (mkRat 9 20) initialSttState mkMeta
        ("It works fine. And then") []).1.sentenceBuffer
      = (splitSentences (bufAfterOf initialSttState ("It works fine. And then"))).remainder
    ∧ (transcribeChunkPure (mkRat 9 20) initialSttState mkMeta
        ("It works fine. And then") []).1.sentenceConfidence
      = blendConfidence 1 (confNewOf [] initialSttState ("It works fine. And then"))
    ∧ (splitSentences (bufAfterOf initialSttState ("It works fine. And then"))).completeSentences
      = jsTrim (joinWithSpace ((scanSentences
          (bufAfterOf initialSttState ("It works fine. And then")).data).map String.mk))
    ∧ (splitSentences (bufAfterOf initialSttState ("It works fine. And then"))).remainder
      = jsTrim (strDropn (bufAfterOf initialSttState ("It works fine. And then"))
          (strLen (jsTrim (joinWithSpace ((scanSentences
            (bufAfterOf initialSttState ("It works fine. And then")).data).map String.mk))))) :=
  (c6_sentence_release (mkRat 9 20) initialSttState mkMeta ("It works fine. And then") []
      (by with_unfolding_all decide) (by with_unfolding_all decide)
      (by with_unfolding_all decide)).1
    ⟨by with_unfolding_all decide, by with_unfolding_all decide⟩


/-- C6 counterexample: after processing the STT text consisting of a lone
period, the buffer is exactly that period — it contains a terminator at
end-of-string and the confidence exceeds the threshold, yet nothing is
released (the regex needs a non-terminator before the punctuation). -/
theorem c6_sentence_release_counterexample :
    (transcribeChunkPure (mkRat 9 20) initialSttState mkMeta (".") []).2 = []
    ∧ (transcribeChunkPure (mkRat 9 20) initialSttState mkMeta (".") []).1.sentenceBuffer
        = "."
    ∧ claimTermMarker ((".") : String).data = true
    ∧ mkRat 9 20 ≤
        (transcribeChunkPure (mkRat 9 20) initialSttState mkMeta (".") []).1.sentenceConfidence := by
  with_unfolding_all decide

end Zypherus
